import Mathlib

set_option maxRecDepth 8000

/-! Verification development for the cache/token core of the geocache demo
(`src/board.ts`, `src/main.ts`): coins, the coin-transfer operation, the
memento (snapshot) serialization and store, deterministic cache
instantiation, the flyweight board, and the event-level state machine that
ties them together. JavaScript arrays of coins are modelled as
`List (Option Coin)` where `none` is the JS value `undefined`, so that the
behaviour of `Array.prototype.pop` on an empty array (returning `undefined`)
and of `push` with an `undefined` argument is captured faithfully. -/

/-- A coin (token), provenance-tagged by the minting cell and a serial
number (`interface Coin` in main.ts, lines 52-56). -/
structure Coin where
  i : Int
  j : Int
  serial : Int
deriving DecidableEq

/-- A geocache: its cell coordinates and its ordered coin list
(`class Geocache` in main.ts, lines 63-92). -/
structure Geocache where
  i : Int
  j : Int
  coins : List Coin
deriving DecidableEq

/-- The state produced by the constructor `new Geocache()` (main.ts lines
67-72: `this.i = 0; this.j = 1; this.coins = []`). -/
def newGeocache : Geocache := { i := 0, j := 1, coins := [] }

/-- JS truthiness of the value returned by `transferCoins`: `null`
(modelled as `none`) and `undefined` (modelled as `some none`) are falsy,
a coin object is truthy. The popup click handlers in `drawCache` branch on
`if (transferred)` (main.ts lines 292 and 309). -/
def jsTruthy : Option (Option Coin) → Bool
  | some (some _) => true
  | _ => false

/-- Model of `transferCoins(sender, reciever, amt)` (main.ts lines 258-266).
A JS array slot holds `Option Coin` (`none` is `undefined`). The returned
value is `Option (Option Coin)`: `none` is the `null` returned by the
insufficient branch, and `some v` is the returned `tempCoin` value `v` —
which `sender.pop()` leaves as `undefined` when the sender is empty (the
non-null assertion `!` in the source has no runtime effect). `pop` removes
the last element of the array (no change on an empty array) and `push`
appends the popped value even when it is `undefined`. -/
def transferCoins (sender reciever : List (Option Coin)) (amt : Int) :
    Option (Option Coin) × List (Option Coin) × List (Option Coin) :=
  if (sender.length : Int) ≥ amt then
    let tempCoin : Option Coin := sender.getLast?.join
    (some tempCoin, sender.dropLast, reciever ++ [tempCoin])
  else
    (none, sender, reciever)

lemma transferCoins_pos (sender reciever : List (Option Coin)) (amt : Int)
    (h : (sender.length : Int) ≥ amt) :
    transferCoins sender reciever amt
      = (some sender.getLast?.join, sender.dropLast,
          reciever ++ [sender.getLast?.join]) := by
  unfold transferCoins
  rw [if_pos h]

lemma transferCoins_neg (sender reciever : List (Option Coin)) (amt : Int)
    (h : ¬ ((sender.length : Int) ≥ amt)) :
    transferCoins sender reciever amt = (none, sender, reciever) := by
  unfold transferCoins
  rw [if_neg h]

lemma getLast?_map_some (l : List Coin) :
    (l.map some).getLast? = l.getLast?.map some := by
  induction l with
  | nil => rfl
  | cons a t ih =>
    cases t with
    | nil => rfl
    | cons b u => simpa using ih

lemma dropLast_map_some (l : List Coin) :
    (l.map some).dropLast = l.dropLast.map some := by
  induction l with
  | nil => rfl
  | cons a t ih =>
    cases t with
    | nil => rfl
    | cons b u => simpa using ih

/-- C2 (amended): on a successful transfer the function moves exactly one
coin — the last (most recently added) element of the sender — regardless
of the requested amount: it is removed from the end of the source, appended
to the destination and returned; the source shrinks by one and the
destination grows by one. -/
theorem transferCoins_moves_exactly_one (s d : List Coin) (amt : Int) (c : Coin)
    (h1 : 1 ≤ amt) (h2 : amt ≤ (s.length : Int)) (h3 : s.getLast? = some c) :
    transferCoins (s.map some) (d.map some) amt
      = (some (some c), s.dropLast.map some, d.map some ++ [some c])
    ∧ s.dropLast.length + 1 = s.length
    ∧ (d.map some ++ [some c]).length = d.length + 1 := by
  have hlen : 1 ≤ s.length := by exact_mod_cast le_trans h1 h2
  have hne : s ≠ [] := by
    intro h
    subst h
    simp at hlen
  refine ⟨?_, ?_, by simp⟩
  · rw [transferCoins_pos _ _ _ (by simpa using h2), getLast?_map_some, h3,
      dropLast_map_some]
    rfl
  · have := List.length_dropLast s
    omega

/-- Witness for `transferCoins_moves_exactly_one` at a concrete input. -/
theorem transferCoins_moves_exactly_one_witness :
    transferCoins [some (⟨0, 0, 0⟩ : Coin), some ⟨0, 0, 1⟩] [] 1
      = (some (some (⟨0, 0, 1⟩ : Coin)), [some (⟨0, 0, 0⟩ : Coin)],
          [some (⟨0, 0, 1⟩ : Coin)])
    ∧ ([⟨0, 0, 0⟩, ⟨0, 0, 1⟩] : List Coin).dropLast.length + 1
        = ([⟨0, 0, 0⟩, ⟨0, 0, 1⟩] : List Coin).length
    ∧ (([] : List Coin).map some ++ [some (⟨0, 0, 1⟩ : Coin)]).length
        = ([] : List Coin).length + 1 := by
  have h := transferCoins_moves_exactly_one
    ([⟨0, 0, 0⟩, ⟨0, 0, 1⟩] : List Coin) ([] : List Coin) 1 (⟨0, 0, 1⟩ : Coin)
    (by norm_num) (by norm_num) (by rfl)
  simpa using h

/-- C2 (counterexample): at a source of two coins and a requested amount of
two, the claim "the source shrinks by `amount`" fails — only one coin is
removed, so the post-transfer source has length 1, not 2 - 2 = 0. -/
theorem transferCoins_amount_two_counterexample :
    ¬ ((transferCoins [some ⟨0, 0, 0⟩, some ⟨0, 0, 1⟩] [] 2).2.1.length
        = ([some ⟨0, 0, 0⟩, some ⟨0, 0, 1⟩] : List (Option Coin)).length - 2) := by
  decide

/-- C3: when the sender holds fewer coins than the requested amount, the
transfer mutates neither collection and signals the insufficiency by
returning `null` (here `none`) — a non-fatal result, not a thrown error
(the function is total). -/
theorem transferCoins_insufficient_no_mutation
    (sender reciever : List (Option Coin)) (amt : Int)
    (h : (sender.length : Int) < amt) :
    transferCoins sender reciever amt = (none, sender, reciever) := by
  exact transferCoins_neg _ _ _ (by omega)

/-- Witness for `transferCoins_insufficient_no_mutation` at a concrete input. -/
theorem transferCoins_insufficient_no_mutation_witness :
    transferCoins [some ⟨0, 0, 0⟩] [] 2 = (none, [some ⟨0, 0, 0⟩], []) :=
  transferCoins_insufficient_no_mutation [some ⟨0, 0, 0⟩] [] 2 (by norm_num)

/-- C4 (counterexample): with amount 0 and an empty sender the guard
`sender.length >= amt` passes, `pop` yields `undefined`, and `push` appends
that `undefined` to the receiver — the total coin-slot count grows from
0 + 0 to 0 + 1, so conservation fails. -/
theorem transferCoins_conservation_counterexample :
    ¬ ((transferCoins ([] : List (Option Coin)) [] 0).2.1.length
        + (transferCoins ([] : List (Option Coin)) [] 0).2.2.length
        = ([] : List (Option Coin)).length + ([] : List (Option Coin)).length) := by
  decide

/-- C4 (amended): for every call with amount at least 1 the sum of the two
collections' lengths is preserved, and a failed transfer (one returning
`null`) leaves both collections element-wise unchanged. Conservation fails
only in the degenerate amount-0/empty-sender call covered by
`transferCoins_conservation_counterexample`. -/
theorem transferCoins_conservation_amended
    (sender reciever : List (Option Coin)) (amt : Int) (h : 1 ≤ amt) :
    (transferCoins sender reciever amt).2.1.length
        + (transferCoins sender reciever amt).2.2.length
      = sender.length + reciever.length
    ∧ ((transferCoins sender reciever amt).1 = none →
        (transferCoins sender reciever amt).2.1 = sender
        ∧ (transferCoins sender reciever amt).2.2 = reciever) := by
  by_cases hg : (sender.length : Int) ≥ amt
  · rw [transferCoins_pos _ _ _ hg]
    have hlen : 1 ≤ sender.length := by exact_mod_cast le_trans h hg
    have hd := List.length_dropLast sender
    constructor
    · simp
      omega
    · intro hnone
      simp at hnone
  · rw [transferCoins_neg _ _ _ hg]
    exact ⟨rfl, fun _ => ⟨rfl, rfl⟩⟩

/-- Witness for `transferCoins_conservation_amended` at a concrete input. -/
theorem transferCoins_conservation_amended_witness :
    (transferCoins [some ⟨0, 0, 0⟩] [] 1).2.1.length
        + (transferCoins [some ⟨0, 0, 0⟩] [] 1).2.2.length
      = ([some ⟨0, 0, 0⟩] : List (Option Coin)).length
        + ([] : List (Option Coin)).length
    ∧ ((transferCoins [some ⟨0, 0, 0⟩] [] 1).1 = none →
        (transferCoins [some ⟨0, 0, 0⟩] [] 1).2.1 = [some ⟨0, 0, 0⟩]
        ∧ (transferCoins [some ⟨0, 0, 0⟩] [] 1).2.2 = []) :=
  transferCoins_conservation_amended [some ⟨0, 0, 0⟩] [] 1 (by norm_num)

/-- C10: calling `transferCoins` with amount 0 and an empty sender passes
the guard, takes the `pop`-on-empty branch (`tempCoin` is `undefined`),
pushes that absent value onto the receiver anyway, and returns a value that
is falsy to the caller's `if (transferred)` check — so the receiver is
mutated on a call whose returned value signals failure. -/
theorem transferCoins_zero_empty_sender (reciever : List (Option Coin)) :
    ((([] : List (Option Coin)).length : Int) ≥ 0
    ∧ transferCoins [] reciever 0 = (some none, [], reciever ++ [none]))
    ∧ jsTruthy (transferCoins [] reciever 0).1 = false
    ∧ (transferCoins [] reciever 0).2.2 ≠ reciever := by
  have hpos := transferCoins_pos [] reciever 0 (by simp)
  simp only [List.getLast?, Option.join, List.dropLast] at hpos
  refine ⟨⟨by simp, by simpa using hpos⟩, ?_, ?_⟩
  · rw [hpos]
    rfl
  · rw [hpos]
    simp

/-- The parsed form of a momento string. `toMomento` produces
`JSON.stringify({ i, j, coins: JSON.stringify(coins) })` — an outer JSON
object with integer fields `i`, `j` and a nested JSON string holding the
coin array. JSON serialization and parsing of records of integer-valued
numbers is exact, so the opaque string is modelled by its parse: the outer
record, with the doubly-encoded coin array kept as the structured list it
round-trips through. -/
structure MomentoStr where
  i : Int
  j : Int
  coins : List Coin
deriving DecidableEq

/-- Model of `Geocache.toMomento` (main.ts lines 73-76). -/
def Geocache.toMomento (g : Geocache) : MomentoStr :=
  { i := g.i, j := g.j, coins := g.coins }

/-- Model of `Geocache.fromMomento` (main.ts lines 78-91): the method
mutates `this`, clearing `this.coins`, overwriting `this.i` and `this.j`
from the parsed object, and pushing a rebuilt coin `{ i, j, serial }` for
each entry of the parsed nested array, in order. The result is the
post-mutation state of the receiver `g`; no field of `g` survives. -/
def Geocache.fromMomento (g : Geocache) (momento : MomentoStr) : Geocache :=
  { i := momento.i, j := momento.j,
    coins := momento.coins.map (fun c => { i := c.i, j := c.j, serial := c.serial }) }

lemma coin_eta_map (l : List Coin) :
    l.map (fun c => ({ i := c.i, j := c.j, serial := c.serial } : Coin)) = l := by
  induction l with
  | nil => rfl
  | cons a t ih => simp [ih]

/-- C5: applying `fromMomento` (to any receiver) on the momento produced by
`toMomento c` yields a Geocache whose `i` and `j` equal `c`'s and whose coin
sequence is element-wise equal to `c`'s, in the same order. -/
theorem momento_roundtrip (g c : Geocache) :
    (g.fromMomento c.toMomento).i = c.i
    ∧ (g.fromMomento c.toMomento).j = c.j
    ∧ (g.fromMomento c.toMomento).coins = c.coins := by
  refine ⟨rfl, rfl, ?_⟩
  simp [Geocache.fromMomento, Geocache.toMomento, coin_eta_map]

/-- Model of `searchMomento(i, j)` (main.ts lines 326-337): the index of the
first momento in the array whose parsed `i` and `j` fields equal the given
cell coordinates, and `null` (`none`) when there is none. -/
def searchMomento : List MomentoStr → Int → Int → Option Nat
  | [], _, _ => none
  | m :: rest, i, j =>
    if m.i = i ∧ m.j = j then some 0
    else (searchMomento rest i j).map (· + 1)

/-- Model of `appendToMomento(cache)` (main.ts lines 340-349): if a momento
for the cache's cell exists it is spliced out, then the cache's momento is
pushed at the end. -/
def appendToMomento (momentoArr : List MomentoStr) (cache : Geocache) :
    List MomentoStr :=
  let arr :=
    match searchMomento momentoArr cache.i cache.j with
    | some idx => momentoArr.eraseIdx idx
    | none => momentoArr
  arr ++ [cache.toMomento]

/-- The snapshots held in the store for a given cell, in store order. -/
def cellSnapshots (momentoArr : List MomentoStr) (i j : Int) : List MomentoStr :=
  momentoArr.filter (fun m => decide (m.i = i ∧ m.j = j))

/-- The at-most-one-snapshot-per-cell store invariant. -/
def AtMostOne (momentoArr : List MomentoStr) : Prop :=
  ∀ i j : Int, (cellSnapshots momentoArr i j).length ≤ 1

lemma cellSnapshots_nil (i j : Int) : cellSnapshots [] i j = [] := rfl

lemma cellSnapshots_cons_pos (m : MomentoStr) (rest : List MomentoStr) (i j : Int)
    (h : m.i = i ∧ m.j = j) :
    cellSnapshots (m :: rest) i j = m :: cellSnapshots rest i j := by
  simp [cellSnapshots, List.filter_cons, h]

lemma cellSnapshots_cons_neg (m : MomentoStr) (rest : List MomentoStr) (i j : Int)
    (h : ¬ (m.i = i ∧ m.j = j)) :
    cellSnapshots (m :: rest) i j = cellSnapshots rest i j := by
  simp [cellSnapshots, List.filter_cons, h]

lemma cellSnapshots_append (arr1 arr2 : List MomentoStr) (i j : Int) :
    cellSnapshots (arr1 ++ arr2) i j
      = cellSnapshots arr1 i j ++ cellSnapshots arr2 i j := by
  simp [cellSnapshots, List.filter_append]

lemma cellSnapshots_toMomento (g : Geocache) :
    cellSnapshots [g.toMomento] g.i g.j = [g.toMomento] := by
  simp [cellSnapshots, Geocache.toMomento]

lemma appendToMomento_eq_none (arr : List MomentoStr) (cache : Geocache)
    (hs : searchMomento arr cache.i cache.j = none) :
    appendToMomento arr cache = arr ++ [cache.toMomento] := by
  unfold appendToMomento
  rw [hs]

lemma appendToMomento_eq_some (arr : List MomentoStr) (cache : Geocache) (idx : Nat)
    (hs : searchMomento arr cache.i cache.j = some idx) :
    appendToMomento arr cache = arr.eraseIdx idx ++ [cache.toMomento] := by
  unfold appendToMomento
  rw [hs]

lemma searchMomento_none (arr : List MomentoStr) (i j : Int)
    (h : searchMomento arr i j = none) : cellSnapshots arr i j = [] := by
  induction arr with
  | nil => rfl
  | cons m rest ih =>
    by_cases hm : m.i = i ∧ m.j = j
    · simp [searchMomento, hm] at h
    · simp only [searchMomento, if_neg hm, Option.map_eq_none'] at h
      rw [cellSnapshots_cons_neg m rest i j hm]
      exact ih h

lemma searchMomento_some_erase (arr : List MomentoStr) (i j : Int) (n : Nat)
    (hlen : (cellSnapshots arr i j).length ≤ 1)
    (h : searchMomento arr i j = some n) :
    cellSnapshots (arr.eraseIdx n) i j = [] := by
  induction arr generalizing n with
  | nil => simp [searchMomento] at h
  | cons m rest ih =>
    by_cases hm : m.i = i ∧ m.j = j
    · simp only [searchMomento, if_pos hm, Option.some.injEq] at h
      subst h
      rw [cellSnapshots_cons_pos m rest i j hm] at hlen
      simp only [List.length_cons] at hlen
      have h0 : (cellSnapshots rest i j).length = 0 := by omega
      simpa [List.eraseIdx] using List.length_eq_zero.mp h0
    · simp only [searchMomento, if_neg hm] at h
      rcases Option.map_eq_some'.mp h with ⟨n', hn', rfl⟩
      rw [cellSnapshots_cons_neg m rest i j hm] at hlen
      have := ih n' hlen hn'
      simpa [List.eraseIdx, cellSnapshots_cons_neg _ _ i j hm] using this

lemma cellSnapshots_eraseIdx_le (arr : List MomentoStr) (i j : Int) (n : Nat) :
    (cellSnapshots (arr.eraseIdx n) i j).length ≤ (cellSnapshots arr i j).length :=
  ((arr.eraseIdx_sublist n).filter _).length_le

lemma appendToMomento_self (arr : List MomentoStr) (g : Geocache)
    (hlen : (cellSnapshots arr g.i g.j).length ≤ 1) :
    cellSnapshots (appendToMomento arr g) g.i g.j = [g.toMomento] := by
  cases hs : searchMomento arr g.i g.j with
  | none =>
    rw [appendToMomento_eq_none arr g hs, cellSnapshots_append,
      searchMomento_none arr g.i g.j hs, cellSnapshots_toMomento]
    rfl
  | some n =>
    rw [appendToMomento_eq_some arr g n hs, cellSnapshots_append,
      searchMomento_some_erase arr g.i g.j n hlen hs, cellSnapshots_toMomento]
    rfl

lemma cellSnapshots_toMomento_other (g : Geocache) (i j : Int)
    (hg : ¬ (g.i = i ∧ g.j = j)) : cellSnapshots [g.toMomento] i j = [] := by
  simp only [cellSnapshots, Geocache.toMomento, List.filter]
  simp [hg]

lemma appendToMomento_atMostOne (arr : List MomentoStr) (g : Geocache) (i j : Int)
    (h : AtMostOne arr) :
    (cellSnapshots (appendToMomento arr g) i j).length ≤ 1 := by
  by_cases hg : g.i = i ∧ g.j = j
  · rcases hg with ⟨rfl, rfl⟩
    rw [appendToMomento_self arr g (h g.i g.j)]
    simp
  · have hbase : ∀ arr' : List MomentoStr,
        (cellSnapshots arr' i j).length ≤ 1 →
        (cellSnapshots (arr' ++ [g.toMomento]) i j).length ≤ 1 := by
      intro arr' h'
      rw [cellSnapshots_append, cellSnapshots_toMomento_other g i j hg]
      simpa using h'
    cases hs : searchMomento arr g.i g.j with
    | none =>
      rw [appendToMomento_eq_none arr g hs]
      exact hbase arr (h i j)
    | some n =>
      rw [appendToMomento_eq_some arr g n hs]
      exact hbase _ (le_trans (cellSnapshots_eraseIdx_le arr i j n) (h i j))

/-- C6: putting a snapshot is an upsert keyed by cell value equality — in a
store where each cell has at most one snapshot, after putting two snapshots
for the same cell exactly one snapshot for that cell remains, namely the
later one; and every single put preserves the at-most-one-per-cell
invariant (stated for the arbitrary cache `g` and cell `(i, j)`). -/
theorem appendToMomento_upsert (arr : List MomentoStr) (c1 c2 g : Geocache)
    (i j : Int) (h : AtMostOne arr) (hi : c1.i = c2.i) (hj : c1.j = c2.j) :
    cellSnapshots (appendToMomento (appendToMomento arr c1) c2) c2.i c2.j
      = [c2.toMomento]
    ∧ (cellSnapshots (appendToMomento arr g) i j).length ≤ 1 := by
  refine ⟨?_, appendToMomento_atMostOne arr g i j h⟩
  have h1 : (cellSnapshots (appendToMomento arr c1) c2.i c2.j).length ≤ 1 := by
    rw [← hi, ← hj]
    exact appendToMomento_atMostOne arr c1 c1.i c1.j h
  exact appendToMomento_self (appendToMomento arr c1) c2 h1

/-- Witness for `appendToMomento_upsert` at a concrete input. -/
theorem appendToMomento_upsert_witness :
    cellSnapshots
        (appendToMomento
          (appendToMomento [] (⟨1, 2, [⟨1, 2, 0⟩]⟩ : Geocache))
          (⟨1, 2, [⟨1, 2, 0⟩, ⟨1, 2, 1⟩]⟩ : Geocache))
        (⟨1, 2, [⟨1, 2, 0⟩, ⟨1, 2, 1⟩]⟩ : Geocache).i
        (⟨1, 2, [⟨1, 2, 0⟩, ⟨1, 2, 1⟩]⟩ : Geocache).j
      = [(⟨1, 2, [⟨1, 2, 0⟩, ⟨1, 2, 1⟩]⟩ : Geocache).toMomento]
    ∧ (cellSnapshots (appendToMomento [] (⟨3, 4, []⟩ : Geocache)) 7 9).length ≤ 1 :=
  appendToMomento_upsert [] ⟨1, 2, [⟨1, 2, 0⟩]⟩ ⟨1, 2, [⟨1, 2, 0⟩, ⟨1, 2, 1⟩]⟩
    ⟨3, 4, []⟩ 7 9 (fun i j => by simp [cellSnapshots]) rfl rfl

/-- The luck key used for a cache's initial coin count:
`[i, j, "initialValue"].toString()` in main.ts line 245. JS `Array.toString`
joins the elements with commas and prints integers in decimal, matching
`toString` on `Int`. -/
def luckInitKey (i j : Int) : String :=
  toString i ++ "," ++ toString j ++ ",initialValue"

/-- The luck key used for the cache-presence test:
`[cell.i, cell.j].toString()` in main.ts line 214. -/
def luckCellKey (i j : Int) : String :=
  toString i ++ "," ++ toString j

/-- Model of `instantiateCache(i, j)` (main.ts lines 237-253): a fresh cache
at cell `(i, j)` holding `Math.floor(luck([i, j, "initialValue"].toString()) * 100)`
coins, pushed in serial order `0 .. count-1`, each minted with the
instantiating cell's coordinates. The deterministic `luck` primitive
(imported from `luck.ts`, a pure string-keyed PRNG per the design) is a
function parameter; its values are modelled as rationals. The source
function also pushes the new cache into `geocacheArr`, which is modelled at
the state-machine level (`spawnCacheCell`). -/
def instantiateCache (luck : String → ℚ) (i j : Int) : Geocache :=
  { i := i, j := j,
    coins := (List.range (Int.floor (luck (luckInitKey i j) * 100)).toNat).map
      (fun (k : Nat) => { i := i, j := j, serial := (k : Int) }) }

/-- C7: fresh instantiation of cell `(i, j)` produces exactly
`floor(luck("i,j,initialValue") * 100)` coins, the coin list is precisely
the serially-numbered list `0 .. count-1` of coins carrying the
instantiating cell's coordinates (which fixes order, serials and cell
fields), and repeated instantiation of the same cell yields the very same
cache — determinism inherited from the pure `luck` function. -/
theorem instantiateCache_spec (luck : String → ℚ) (i j : Int)
    (h : 0 ≤ luck (luckInitKey i j)) :
    ((instantiateCache luck i j).coins.length : Int)
        = Int.floor (luck (luckInitKey i j) * 100)
    ∧ (instantiateCache luck i j).coins
        = (List.range (Int.floor (luck (luckInitKey i j) * 100)).toNat).map
            (fun (k : Nat) => { i := i, j := j, serial := (k : Int) })
    ∧ instantiateCache luck i j = instantiateCache luck i j := by
  have hfl : 0 ≤ Int.floor (luck (luckInitKey i j) * 100) := by
    apply Int.le_floor.mpr
    simpa using mul_nonneg h (by norm_num : (0 : ℚ) ≤ 100)
  have hlen : (instantiateCache luck i j).coins.length
      = (Int.floor (luck (luckInitKey i j) * 100)).toNat := by
    simp [instantiateCache]
  refine ⟨?_, rfl, rfl⟩
  rw [hlen]
  exact Int.toNat_of_nonneg hfl

/-- Witness for `instantiateCache_spec` at a concrete input. -/
theorem instantiateCache_spec_witness :
    ((instantiateCache (fun _ => (1 : ℚ)/20) 0 0).coins.length : Int)
        = Int.floor (((1 : ℚ)/20) * 100)
    ∧ (instantiateCache (fun _ => (1 : ℚ)/20) 0 0).coins
        = (List.range (Int.floor (((1 : ℚ)/20) * 100)).toNat).map
            (fun (k : Nat) => { i := 0, j := 0, serial := (k : Int) })
    ∧ instantiateCache (fun _ => (1 : ℚ)/20) 0 0
        = instantiateCache (fun _ => (1 : ℚ)/20) 0 0 :=
  instantiateCache_spec (fun _ => (1 : ℚ)/20) 0 0 (by norm_num)

/-- A grid cell: immutable integer coordinates (`interface Cell` in
board.ts, lines 3-6). -/
structure Cell where
  i : Int
  j : Int
deriving DecidableEq

/-- The key under which a cell is stored in the board's `knownCells` map:
`[i, j].toString()` (board.ts line 21), i.e. the string `"i,j"`. -/
def cellKey (c : Cell) : String :=
  toString c.i ++ "," ++ toString c.j

/-- Model of `class Board` (board.ts). JS object identity of the flyweight
cells is made explicit by an arena: `cellArena` holds every `Cell` object
the board has ever stored, a reference (identity) is an arena index, and
`knownCells` models the `Map<string, Cell>` as an association list from key
to reference. Each of the two lists stores the newest entry first (the
`Map`'s iteration order is observed by nothing — only `has`/`get` are ever
called — and `set` is only called on absent keys, so keys are unique and a
front-first association list has exactly the observable behaviour of the
`Map`); a reference is the allocation index, counting from the first
allocation. Geographic coordinates are modelled as rationals. -/
structure Board where
  tileWidth : ℚ
  tileVisibilityRadius : Int
  cellArena : List Cell
  knownCells : List (String × Nat)

/-- The cell stored at allocation index `r` of a newest-first arena. -/
def arenaAt (arena : List Cell) (r : Nat) : Option Cell :=
  if r < arena.length then arena.get? (arena.length - 1 - r) else none

/-- The cell object a reference points at. -/
def Board.cellAt (b : Board) (r : Nat) : Option Cell :=
  arenaAt b.cellArena r

/-- Model of `Board.getCanonicalCell(cell)` (board.ts lines 19-28): look the
cell's key up in `knownCells`; if absent, store the passed cell object under
the key; return the object stored under the key. -/
def Board.getCanonicalCell (b : Board) (cell : Cell) : Board × Nat :=
  match b.knownCells.lookup (cellKey cell) with
  | some r => (b, r)
  | none =>
      ({ b with
          cellArena := cell :: b.cellArena,
          knownCells := (cellKey cell, b.cellArena.length) :: b.knownCells },
        b.cellArena.length)

/-- Model of `Board.getCellForPoint(point)` (board.ts lines 30-37):
quantize the latitude/longitude by `tileWidth` and canonicalize. -/
def Board.getCellForPoint (b : Board) (point : ℚ × ℚ) : Board × Nat :=
  b.getCanonicalCell
    { i := Int.floor (point.1 / b.tileWidth), j := Int.floor (point.2 / b.tileWidth) }

/-- Model of `Board.getCellBounds(cell)` (board.ts lines 39-45). Despite its
`leaflet.LatLngBounds` return annotation, the body computes the single
geographic point `(i * tileWidth, j * tileWidth)` and returns it
(`leaflet.latLng` applied to a `LatLng` returns that same point); no second
corner is ever computed. -/
def Board.getCellBounds (b : Board) (cell : Cell) : ℚ × ℚ :=
  (cell.i * b.tileWidth, cell.j * b.tileWidth)

/-- The inclusive integer range `lo .. hi`, the values taken by the
`for` counters in `getCellsNearPoint`. -/
def intRangeIncl (lo hi : Int) : List Int :=
  (List.range (hi + 1 - lo).toNat).map (fun t => lo + (t : Int))

/-- Model of `Board.getCellsNearPoint(point)` (board.ts lines 47-69): the
canonical cells (as references) for all offsets `(c, r)` with
`c, r ∈ [-radius, radius]`, outer loop on `c`, threading the board through
each `getCanonicalCell` call. -/
def Board.getCellsNearPoint (b : Board) (point : ℚ × ℚ) : Board × List Nat :=
  match b.getCellForPoint point with
  | (b1, o) =>
    match b1.cellAt o with
    | some originCell =>
      (intRangeIncl (-b.tileVisibilityRadius) b.tileVisibilityRadius).foldl
        (fun acc c =>
          (intRangeIncl (-b.tileVisibilityRadius) b.tileVisibilityRadius).foldl
            (fun acc2 r =>
              match acc2.1.getCanonicalCell
                  { i := originCell.i + c, j := originCell.j + r } with
              | (b2, ref) => (b2, acc2.2 ++ [ref]))
            acc)
        (b1, [])
    | none => (b1, [])

/-- C9 evaluated at the failing input: with the repository's board
(`new Board(1e-4, 8)`, main.ts line 118) and cell `(1, 2)`, `getCellBounds`
returns the single point `(1 * 1e-4, 2 * 1e-4)` — only the south-west
corner; the rectangle's opposite corner `((i+1) * tileWidth,
(j+1) * tileWidth)` required by the claim is never produced (in general the
result is always the one point `(i * tileWidth, j * tileWidth)`). -/
theorem getCellBounds_single_point :
    (Board.getCellBounds ⟨1/10000, 8, [], []⟩ ⟨1, 2⟩
        = ((1 : ℚ)/10000, (2 : ℚ)/10000))
    ∧ (∀ (b : Board) (cell : Cell),
        Board.getCellBounds b cell = (cell.i * b.tileWidth, cell.j * b.tileWidth)) := by
  constructor
  · show ((1 : ℚ) * (1/10000), (2 : ℚ) * (1/10000)) = ((1 : ℚ)/10000, (2 : ℚ)/10000)
    norm_num
  · intro b cell
    rfl

/-- Board growth: every key-to-reference entry of the canonical-cell table
survives, bound to the same reference, and every arena slot keeps its cell
object. This is the sense in which the table never loses an entry. -/
def Board.Extends (b b' : Board) : Prop :=
  (∀ (k : String) (r : Nat),
      b.knownCells.lookup k = some r → b'.knownCells.lookup k = some r)
  ∧ (∀ (r : Nat) (c : Cell), b.cellAt r = some c → b'.cellAt r = some c)

lemma Board.Extends.refl (b : Board) : Board.Extends b b :=
  ⟨fun _ _ h => h, fun _ _ h => h⟩

lemma Board.Extends.trans {a b c : Board}
    (h1 : Board.Extends a b) (h2 : Board.Extends b c) : Board.Extends a c :=
  ⟨fun k r h => h2.1 k r (h1.1 k r h), fun r cl h => h2.2 r cl (h1.2 r cl h)⟩

lemma lookup_cons_of_fresh {κ : Type} [BEq κ] [LawfulBEq κ]
    (l : List (κ × Nat)) (knew k : κ)
    (v r : Nat) (hnew : l.lookup knew = none) (h : l.lookup k = some r) :
    (((knew, v)) :: l).lookup k = some r := by
  by_cases hk : k == knew
  · rw [beq_iff_eq.mp hk] at h
    rw [h] at hnew
    cases hnew
  · simpa [List.lookup, hk] using h

lemma arenaAt_cons (cell : Cell) (arena : List Cell) (r : Nat) (c : Cell)
    (h : arenaAt arena r = some c) : arenaAt (cell :: arena) r = some c := by
  unfold arenaAt at h ⊢
  by_cases hr : r < arena.length
  · rw [if_pos hr] at h
    rw [if_pos (by simp only [List.length_cons]; omega)]
    simp only [List.length_cons]
    have hidx : arena.length + 1 - 1 - r = (arena.length - 1 - r) + 1 := by omega
    rw [hidx, List.get?_cons_succ]
    exact h
  · rw [if_neg hr] at h
    cases h

lemma getCanonicalCell_extends (b : Board) (c : Cell) :
    Board.Extends b (b.getCanonicalCell c).1 := by
  unfold Board.getCanonicalCell
  cases h : b.knownCells.lookup (cellKey c) with
  | some r => exact Board.Extends.refl b
  | none =>
    refine ⟨fun k r hk => ?_, fun r cl hc => ?_⟩
    · exact lookup_cons_of_fresh _ _ k _ r h hk
    · exact arenaAt_cons _ _ r cl hc

/-- After canonicalizing `c`, the table maps `c`'s key to the returned
reference — on a miss the passed cell object was just stored there. -/
lemma getCanonicalCell_lookup_self (b : Board) (c : Cell) :
    (b.getCanonicalCell c).1.knownCells.lookup (cellKey c)
      = some (b.getCanonicalCell c).2 := by
  unfold Board.getCanonicalCell
  cases h : b.knownCells.lookup (cellKey c) with
  | some r => exact h
  | none => simp [List.lookup]

/-- A canonicalization that hits the table returns the stored reference and
leaves the board unchanged. -/
lemma getCanonicalCell_hit (b : Board) (c : Cell) (r : Nat)
    (h : b.knownCells.lookup (cellKey c) = some r) :
    b.getCanonicalCell c = (b, r) := by
  unfold Board.getCanonicalCell
  rw [h]

lemma getCellForPoint_extends (b : Board) (p : ℚ × ℚ) :
    Board.Extends b (b.getCellForPoint p).1 :=
  getCanonicalCell_extends b _

lemma innerFold_extends (oc : Cell) (c : Int) (rng : List Int) :
    ∀ acc : Board × List Nat,
      Board.Extends acc.1
        ((rng.foldl (fun acc2 r =>
            ((acc2.1.getCanonicalCell { i := oc.i + c, j := oc.j + r }).1,
              acc2.2 ++ [(acc2.1.getCanonicalCell { i := oc.i + c, j := oc.j + r }).2]))
          acc).1) := by
  induction rng with
  | nil => exact fun acc => Board.Extends.refl _
  | cons r rest ih =>
    intro acc
    refine Board.Extends.trans ?_ (ih _)
    exact getCanonicalCell_extends acc.1 _

lemma outerFold_extends (oc : Cell) (rng xs : List Int) :
    ∀ acc : Board × List Nat,
      Board.Extends acc.1
        ((xs.foldl (fun acc c =>
            rng.foldl (fun acc2 r =>
              ((acc2.1.getCanonicalCell { i := oc.i + c, j := oc.j + r }).1,
                acc2.2 ++ [(acc2.1.getCanonicalCell { i := oc.i + c, j := oc.j + r }).2]))
            acc) acc).1) := by
  induction xs with
  | nil => exact fun acc => Board.Extends.refl _
  | cons x rest ih =>
    intro acc
    exact Board.Extends.trans (innerFold_extends oc x rng acc) (ih _)

lemma getCellsNearPoint_extends (b : Board) (p : ℚ × ℚ) :
    Board.Extends b (b.getCellsNearPoint p).1 := by
  unfold Board.getCellsNearPoint
  refine Board.Extends.trans (getCellForPoint_extends b p) ?_
  cases h : (b.getCellForPoint p).1.cellAt (b.getCellForPoint p).2 with
  | some originCell =>
    simp only [h]
    exact outerFold_extends originCell _ _ ((b.getCellForPoint p).1, [])
  | none =>
    simp only [h]
    exact Board.Extends.refl _

/-- The state-changing requests a client can make of the Board;
`getCellBounds` touches no state and is omitted. -/
inductive BoardOp where
  | forPoint (p : ℚ × ℚ)
  | nearPoint (p : ℚ × ℚ)

/-- Run one Board request, keeping the resulting board state. -/
def Board.applyOp (b : Board) (op : BoardOp) : Board :=
  match op with
  | .forPoint p => (b.getCellForPoint p).1
  | .nearPoint p => (b.getCellsNearPoint p).1

/-- Run a sequence of Board requests. -/
def Board.runOps (b : Board) (ops : List BoardOp) : Board :=
  ops.foldl Board.applyOp b

lemma runOps_extends (b : Board) (ops : List BoardOp) :
    Board.Extends b (b.runOps ops) := by
  induction ops generalizing b with
  | nil => exact Board.Extends.refl b
  | cons op rest ih =>
    refine Board.Extends.trans ?_ (ih (b.applyOp op))
    cases op with
    | forPoint p => exact getCellForPoint_extends b p
    | nearPoint p => exact getCellsNearPoint_extends b p

/-- C8: two successive requests that resolve to the same `(i, j)` return the
same canonical cell reference (JS object identity, modelled as the arena
index) — hence also value-equal cells — with the second request leaving the
table unchanged; and across any sequence of Board operations the
canonical-cell table never loses an entry: a key keeps its reference and the
referenced arena slot keeps its cell object. -/
theorem board_flyweight (b : Board) (c c' : Cell) (hi : c.i = c'.i)
    (hj : c.j = c'.j) (ops : List BoardOp) (key : String) (r : Nat) (cl : Cell)
    (hlook : b.knownCells.lookup key = some r)
    (hcell : b.cellAt r = some cl) :
    ((b.getCanonicalCell c).1.getCanonicalCell c').2 = (b.getCanonicalCell c).2
    ∧ ((b.getCanonicalCell c).1.getCanonicalCell c').1 = (b.getCanonicalCell c).1
    ∧ (b.runOps ops).knownCells.lookup key = some r
    ∧ (b.runOps ops).cellAt r = some cl := by
  have hkey : cellKey c = cellKey c' := by
    unfold cellKey
    rw [hi, hj]
  have hhit := getCanonicalCell_hit (b.getCanonicalCell c).1 c'
    (b.getCanonicalCell c).2 (by rw [← hkey]; exact getCanonicalCell_lookup_self b c)
  refine ⟨by rw [hhit], by rw [hhit], ?_, ?_⟩
  · exact (runOps_extends b ops).1 key r hlook
  · exact (runOps_extends b ops).2 r cl hcell

/-- Witness for `board_flyweight` at a concrete input: a board already
holding the canonical cell `(5, 6)` at arena slot 0, two requests for cell
`(1, 2)`, and one `forPoint` operation. -/
theorem board_flyweight_witness :
    ((Board.getCanonicalCell ⟨1/10000, 8, [⟨5, 6⟩], [("5,6", 0)]⟩
          ⟨1, 2⟩).1.getCanonicalCell ⟨1, 2⟩).2
      = (Board.getCanonicalCell ⟨1/10000, 8, [⟨5, 6⟩], [("5,6", 0)]⟩ ⟨1, 2⟩).2
    ∧ ((Board.getCanonicalCell ⟨1/10000, 8, [⟨5, 6⟩], [("5,6", 0)]⟩
          ⟨1, 2⟩).1.getCanonicalCell ⟨1, 2⟩).1
      = (Board.getCanonicalCell ⟨1/10000, 8, [⟨5, 6⟩], [("5,6", 0)]⟩ ⟨1, 2⟩).1
    ∧ (Board.runOps ⟨1/10000, 8, [⟨5, 6⟩], [("5,6", 0)]⟩
          [BoardOp.forPoint (0, 0)]).knownCells.lookup "5,6" = some 0
    ∧ (Board.runOps ⟨1/10000, 8, [⟨5, 6⟩], [("5,6", 0)]⟩
          [BoardOp.forPoint (0, 0)]).cellAt 0 = some ⟨5, 6⟩ :=
  board_flyweight ⟨1/10000, 8, [⟨5, 6⟩], [("5,6", 0)]⟩ ⟨1, 2⟩ ⟨1, 2⟩ rfl rfl
    [BoardOp.forPoint (0, 0)] "5,6" 0 ⟨5, 6⟩ (by rfl) (by rfl)

/-- The module-level mutable state of main.ts that the cache/momento
subsystem touches, with JS heap identity made explicit: `heap` holds every
`Geocache` object ever allocated, and `geocacheArr` (main.ts line 121) and
`displayed` hold references (heap indices). `displayed` models the caches
currently drawn on the map — the `cache` objects captured by the popup
click handlers bound in `drawCache`, cleared by `clearCacheMarker`.
`momentoArr` is the Snapshot Store (main.ts line 122), `playerCoins` the
player inventory (line 105), `board` the `mapBoard` grid (line 118). The
`localStorage` writes (`storeMomentoArr`, `storePlayerCoins`,
`storePlayerLoc`) leave this state and are not modelled. -/
structure MState where
  heap : List Geocache
  geocacheArr : List Nat
  momentoArr : List MomentoStr
  displayed : List Nat
  playerCoins : List Coin
  board : Board

/-- Fallback for momento-array indexing; `searchMomento` only returns
in-range indices, so the default is never read. -/
def defaultMomento : MomentoStr := { i := 0, j := 0, coins := [] }

/-- Model of `updateMomento()` (main.ts lines 351-356): upsert every cache
in `geocacheArr` into the momento array, in order. The trailing
`storeMomentoArr()` writes to localStorage and is outside the state. -/
def updateMomento (st : MState) : MState :=
  { st with
      momentoArr := st.geocacheArr.foldl
        (fun arr ref => appendToMomento arr (st.heap.getD ref newGeocache))
        st.momentoArr }

/-- Model of `cacheValueChanged()` (main.ts lines 410-414): `updateMomento`
followed by `storeMomentoArr`/`storePlayerCoins`, which only write to
localStorage. -/
def cacheValueChanged (st : MState) : MState :=
  updateMomento st

/-- Model of `clearCacheMarker()` (main.ts lines 229-234): removes every
displayed cache marker (and with it the popup's captured cache object). -/
def clearCacheMarker (st : MState) : MState :=
  { st with displayed := [] }

/-- Model of one iteration of the `forEach` body of `spawnCache`
(main.ts lines 212-225) at a canonical cell: if the luck presence test
(`CACHE_SPAWN_PROBABILITY = 0.1`, main.ts line 27) passes, either restore a brand-new `Geocache` from the stored momento
(`momentoIdx != null` branch — note the restored object is displayed but
never pushed into `geocacheArr`) or instantiate a fresh cache
(`instantiateCache` pushes it into `geocacheArr`, line 242); either way the
resulting cache is handed to `drawCache`. -/
def spawnCacheCell (luck : String → ℚ) (st : MState) (cell : Cell) : MState :=
  if luck (luckCellKey cell.i cell.j) < 1/10 then
    match searchMomento st.momentoArr cell.i cell.j with
    | none =>
        { st with
            heap := st.heap ++ [instantiateCache luck cell.i cell.j],
            geocacheArr := st.geocacheArr ++ [st.heap.length],
            displayed := st.displayed ++ [st.heap.length] }
    | some idx =>
        { st with
            heap := st.heap
              ++ [Geocache.fromMomento newGeocache
                    (st.momentoArr.getD idx defaultMomento)],
            displayed := st.displayed ++ [st.heap.length] }
  else st

/-- Model of `spawnCache(origin)` (main.ts lines 208-226): enumerate the
canonical cells near the origin through the board, then run the per-cell
body on each cell value in order. -/
def spawnCache (luck : String → ℚ) (st : MState) (origin : ℚ × ℚ) : MState :=
  let res := st.board.getCellsNearPoint origin
  res.2.foldl
    (fun s ref => spawnCacheCell luck s ((res.1.cellAt ref).getD { i := 0, j := 0 }))
    { st with board := res.1 }

/-- Model of the collect-button click handler (main.ts lines 287-301) on the
`k`-th displayed cache: `transferCoins(cache.coins, playerCoins, 1)`; when
the returned value is truthy, the mutated arrays are kept and
`cacheValueChanged()` runs; otherwise only an alert is shown. The transfer
with amount 1 on a displayed cache moves real coins, so `reduceOption`
converting the JS arrays back to coin lists drops nothing (see
`transferCoins_moves_exactly_one`). -/
def collectClick (st : MState) (k : Nat) : MState :=
  match st.displayed.get? k with
  | none => st
  | some ref =>
    let cache := st.heap.getD ref newGeocache
    let res := transferCoins (cache.coins.map some) (st.playerCoins.map some) 1
    if jsTruthy res.1 then
      cacheValueChanged
        { st with
            heap := st.heap.set ref { cache with coins := res.2.1.reduceOption },
            playerCoins := res.2.2.reduceOption }
    else st

/-- Model of the deposit-button click handler (main.ts lines 303-318),
the mirror image of `collectClick`. -/
def depositClick (st : MState) (k : Nat) : MState :=
  match st.displayed.get? k with
  | none => st
  | some ref =>
    let cache := st.heap.getD ref newGeocache
    let res := transferCoins (st.playerCoins.map some) (cache.coins.map some) 1
    if jsTruthy res.1 then
      cacheValueChanged
        { st with
            heap := st.heap.set ref { cache with coins := res.2.2.reduceOption },
            playerCoins := res.2.1.reduceOption }
    else st

/-- Model of the `player-moved` event handler (main.ts lines 136-144):
after the rendering and localStorage calls, `updateMomento()`, then
`clearCacheMarker()`, then `spawnCache(playerLocation)`. -/
def playerMovedEvent (luck : String → ℚ) (st : MState) (p : ℚ × ℚ) : MState :=
  spawnCache luck (clearCacheMarker (updateMomento st)) p

/-- The board constructed at startup: `new Board(TILE_DEGREES,
NEIGHBORHOOD_SIZE)` with `TILE_DEGREES = 1e-4` and `NEIGHBORHOOD_SIZE = 8`
(main.ts lines 25-26, 118). -/
def mapBoard : Board :=
  { tileWidth := 1/10000
    tileVisibilityRadius := 8
    cellArena := []
    knownCells := [] }

/-- The state at startup with empty persisted storage (`restoreData()` a
no-op), before the initial `spawnCache` (main.ts line 442). -/
def initialState : MState :=
  { heap := [], geocacheArr := [], momentoArr := [], displayed := [],
    playerCoins := [], board := mapBoard }

/-- A deterministic luck function under which exactly the cell `(0, 0)` is
selected as populated, with initial value 1/20 (5 coins); all other keys
give 1/2, failing the presence test. Stands in for the `luck.ts` hash. -/
def luck0 : String → ℚ := fun s =>
  if s = "0,0" ∨ s = "0,0,initialValue" then 1/20 else 1/2

/-- A player position inside cell `(0, 0)`: its cell under `tileWidth`
`1e-4` is `(0, 0)`, so the radius-8 neighbourhood enumerated by
`spawnCache origin0` contains the cells `(c, r)` for `c, r ∈ [-8, 8]`. -/
def origin0 : ℚ × ℚ := (1/20000, 1/20000)

/-- A spawn iteration at a cell whose presence test fails changes nothing
— under `luck0` that is every cell other than `(0, 0)`, so each
`spawnCache` pass over the neighbourhood of `origin0` acts on the machine
state exactly as its single `(0, 0)` iteration does. -/
lemma spawnCacheCell_not_lucky (luck : String → ℚ) (st : MState) (cell : Cell)
    (h : ¬ (luck (luckCellKey cell.i cell.j) < 1/10)) :
    spawnCacheCell luck st cell = st := by
  unfold spawnCacheCell
  rw [if_neg h]

/-- The `(0, 0)` iteration of the initial page-load `spawnCache origin0`
(main.ts line 442), starting from empty storage. Under `luck0` the other
288 iterations are no-ops by `spawnCacheCell_not_lucky`, and no iteration
of this trace touches `board`, so the machine state after the full event
has the same cache/momento core. -/
def stA : MState := spawnCacheCell luck0 initialState ⟨0, 0⟩

/-- The player collects one coin from the (freshly instantiated, displayed)
cache at `(0, 0)`. -/
def stB : MState := collectClick stA 0

/-- The player-moved event at `origin0` (same position): after
`updateMomento` and `clearCacheMarker`, the redraw's `spawnCache` pass —
again acting only at `(0, 0)` — restores the cache from its momento into a
brand-new object and displays it. -/
def stC : MState := spawnCacheCell luck0 (clearCacheMarker (updateMomento stB)) ⟨0, 0⟩

/-- The player collects a second coin, now from the restored cache. -/
def stD : MState := collectClick stC 0

/-- The observable core of the machine state (everything but the board). -/
def coreOf (st : MState) :
    List Geocache × List Nat × List MomentoStr × List Nat × List Coin :=
  (st.heap, st.geocacheArr, st.momentoArr, st.displayed, st.playerCoins)

lemma stD_core :
    coreOf stD =
      ([{ i := 0, j := 0,
            coins := [⟨0, 0, 0⟩, ⟨0, 0, 1⟩, ⟨0, 0, 2⟩, ⟨0, 0, 3⟩] },
        { i := 0, j := 0, coins := [⟨0, 0, 0⟩, ⟨0, 0, 1⟩, ⟨0, 0, 2⟩] }],
       [0],
       [{ i := 0, j := 0,
            coins := [⟨0, 0, 0⟩, ⟨0, 0, 1⟩, ⟨0, 0, 2⟩, ⟨0, 0, 3⟩] }],
       [1],
       [⟨0, 0, 4⟩, ⟨0, 0, 3⟩]) := by
  with_unfolding_all decide

/-- C1 (code evaluated at the failing scenario): the snapshot invariant
fails on a reachable state. Reached by: the initial spawn around `origin0`
(its only populated iteration instantiates the cache at `(0, 0)` with 5
coins and displays it), a successful collect (the momento correctly
records 4 coins), the player-moved event (after `updateMomento` and
`clearCacheMarker`, its only populated spawn iteration re-displays `(0, 0)`
by restoring a brand-new object from the momento — which `spawnCache`
never pushes into `geocacheArr`), and a second successful collect on that
restored, displayed cache. Afterwards the displayed cache holds 3 coins,
but the Snapshot Store still holds the 4-coin snapshot written from the
stale `geocacheArr` object: no snapshot in the store matches the cache's
post-transfer token sequence, even though `cacheValueChanged()` ran on the
transfer. -/
theorem momento_misses_restored_cache_transfer :
    stD.displayed = [1]
    ∧ (stD.heap.getD 1 newGeocache).coins = [⟨0, 0, 0⟩, ⟨0, 0, 1⟩, ⟨0, 0, 2⟩]
    ∧ stD.momentoArr
        = [{ i := 0, j := 0,
              coins := [⟨0, 0, 0⟩, ⟨0, 0, 1⟩, ⟨0, 0, 2⟩, ⟨0, 0, 3⟩] }]
    ∧ ∀ m ∈ stD.momentoArr,
        ¬ (m.i = 0 ∧ m.j = 0 ∧ m.coins = (stD.heap.getD 1 newGeocache).coins) := by
  have hheap : stD.heap
      = [{ i := 0, j := 0,
            coins := [⟨0, 0, 0⟩, ⟨0, 0, 1⟩, ⟨0, 0, 2⟩, ⟨0, 0, 3⟩] },
         { i := 0, j := 0, coins := [⟨0, 0, 0⟩, ⟨0, 0, 1⟩, ⟨0, 0, 2⟩] }] :=
    congrArg (fun t => t.1) stD_core
  have hmom : stD.momentoArr
      = [{ i := 0, j := 0,
            coins := [⟨0, 0, 0⟩, ⟨0, 0, 1⟩, ⟨0, 0, 2⟩, ⟨0, 0, 3⟩] }] :=
    congrArg (fun t => t.2.2.1) stD_core
  have hdisp : stD.displayed = [1] :=
    congrArg (fun t => t.2.2.2.1) stD_core
  refine ⟨hdisp, ?_, hmom, ?_⟩
  · rw [hheap]
    rfl
  · rw [hmom, hheap]
    decide
